import Mathlib

/-!
# Verification of the xibus connection core and schema layer

A shallow embedding, in Lean 4, of the parts of the `xibus` D-Bus client
library that the specification's testable properties talk about:

* `src/xibus/connection.py` — the `Connection` state machine: serial
  allocation, object-path validation, the read-path demultiplexer
  (`on_read`), the write path (`on_write` / `send`), reply bookkeeping in
  `call`, `send_reply`, and teardown (`__aexit__`).
* `src/xibus/schema.py` — the introspection-XML parser (`Schema.from_xml`)
  and emitter (`Schema.to_xml`), modelled on element trees.
* `src/xibus/client.py` — `Client.call`: default-signature computation and
  result unwrapping.

Python dictionaries are embedded as association lists with Python's
insertion-order semantics; Python exceptions as an `Except PyErr` result;
the asyncio event loop's reader/writer registrations and the socket as
explicit boolean fields of the connection state.  `xml.etree.ElementTree`
elements are embedded as a `tag`/`attrs`/`children` tree, and the library's
documented ElementPath semantics for the predicates the source uses
(`[@direction!="out"]` selects only elements that *have* the attribute with
a different value) is embedded as written in CPython's `ElementPath.py`.
-/

namespace Xibus

/-! ## Python primitives: exceptions and dict semantics -/

/-- The Python exceptions the embedded code can raise. -/
inductive PyErr where
  /-- `KeyError` from a dict subscript (`d[k]`), carrying the key. -/
  | keyError (k : Option String)
  /-- `ValueError` — raised by `on_read` for an unroutable message and by
  `call` for an unexpected response kind. -/
  | valueError
  /-- `InvalidPathError` from `Connection.call` / `Connection.emit_signal`. -/
  | invalidPath (path : String)
  /-- `IndexError` from `result[0]` on an empty sequence. -/
  | indexError
  /-- `TypeError` from `str.join` over a sequence containing `None`. -/
  | typeError
  deriving DecidableEq, Repr

deriving instance DecidableEq for Except

/-- Lookup in an association list embedding a Python dict (`d[k]` /
`k in d`): the first matching key wins; keys are unique by construction. -/
def alookup {κ α : Type} [DecidableEq κ] : List (κ × α) → κ → Option α
  | [], _ => none
  | p :: rest, k => if p.1 = k then some p.2 else alookup rest k

/-- `d.pop(k, None)`: remove the entry for `k`, if any. -/
def aerase {κ α : Type} [DecidableEq κ] : List (κ × α) → κ → List (κ × α)
  | [], _ => []
  | p :: rest, k => if p.1 = k then rest else p :: aerase rest k

/-- `d[k] = v` on a Python dict: replace in place if the key exists,
else append (insertion order is preserved, Python ≥ 3.7). -/
def aset {κ α : Type} [DecidableEq κ] (l : List (κ × α)) (k : κ) (v : α) :
    List (κ × α) :=
  if (alookup l k).isSome then
    l.map (fun p => if p.1 = k then (p.1, v) else p)
  else
    l ++ [(k, v)]

/-- `dict(pairs)`: build a Python dict from a pair list — first occurrence
fixes the position, last occurrence fixes the value. -/
def pydict {κ α : Type} [DecidableEq κ] (l : List (κ × α)) : List (κ × α) :=
  l.foldl (fun acc p => aset acc p.1 p.2) []

/-! ## Messages

`src/xibus/message.py` is not part of the sources at hand; the `Msg`
record below is modelled from the spec: §3 "Message" lists the fields
(kind, flags, serial, destination, sender, path, interface, member,
reply-serial, error-name, signature, body).  Only the record and the
`NO_REPLY_EXPECTED` flag bit are needed; all connection-level logic that
the claims are about lives in `src/xibus/connection.py`, which is embedded
from its source below.  Body values are kept abstract as strings. -/

/-- Message kinds (`MsgType` in the source; spec §3). -/
inductive MsgType where
  | METHOD_CALL
  | METHOD_RETURN
  | ERROR
  | SIGNAL
  deriving DecidableEq, Repr

/-- Modelled from the spec: the `NO_REPLY_EXPECTED` flag bit of the flags
bitset (`MsgFlag.NO_REPLY_EXPECTED`; the flags bitset is spec §3). -/
def NO_REPLY_EXPECTED : Nat := 1

/-- `flags & MsgFlag.NO_REPLY_EXPECTED` as a truth value. -/
def hasNoReply (flags : Nat) : Bool := flags.land NO_REPLY_EXPECTED != 0

/-- Modelled from the spec: the message record (spec §3 "Message");
`src/xibus/message.py` is absent, but every field here is also visible at
the `Msg(...)` construction sites in `src/xibus/connection.py`. -/
structure Msg where
  typ : MsgType
  serial : Nat
  flags : Nat := 0
  destination : Option String := none
  sender : Option String := none
  path : Option String := none
  iface : Option String := none
  member : Option String := none
  replySerial : Option Nat := none
  errorName : Option String := none
  body : List String := []
  sig : String := ""
  deriving DecidableEq, Repr

/-! ## Connection state

`Connection.__init__` (connection.py lines 32–46): serial counter, send
queue, pending-reply table, call-queue table, signal-queue set; socket and
unique name are set on entry.  Reply futures and signal queues are
identified by numbers; the event loop's reader/writer registration and the
socket's lifecycle are explicit booleans. -/

/-- The `Connection` state (`Connection.__init__` plus the loop/socket
facts the teardown claim needs). -/
structure Conn where
  serial : Nat := 0
  sendQueue : List Msg := []
  replies : List (Nat × Nat) := []
  callQueues : List (Option String × List Msg) := []
  signalQueues : List (Nat × List Msg) := []
  nextFuture : Nat := 0
  readerOn : Bool := false
  writerOn : Bool := false
  sockOpen : Bool := false
  sockShut : Bool := false
  uniqueName : Option String := none
  deriving DecidableEq, Repr

/-- A freshly constructed connection (`Connection.__init__`). -/
def Conn.init : Conn := {}

/-- `Connection.get_serial` (connection.py lines 48–50): increment first,
then return — the first serial handed out is 1. -/
def Conn.get_serial (c : Conn) : Nat × Conn :=
  (c.serial + 1, { c with serial := c.serial + 1 })

/-! ## Object-path validation

`RE_PATH = re.compile(r'^/[A-Za-z0-9_/]*$')` and `RE_PATH.match(path)`
(connection.py line 11, used at lines 150 and 189).  Python's `$` (without
`re.MULTILINE`) matches at the end of the string *and* just before a
newline at the end of the string, so `match` also accepts a path that is a
grammar-conforming path followed by one trailing `'\n'`. -/

/-- One character of the class `[A-Za-z0-9_/]`. -/
def pathChar (c : Char) : Bool :=
  c.isAlpha || c.isDigit || c = '_' || c = '/'

/-- `RE_PATH.match(path)` with Python `re` semantics: `^/[A-Za-z0-9_/]*$`,
where `$` also matches before a single trailing newline. -/
def rePathMatch (path : String) : Bool :=
  match path.data with
  | [] => false
  | c :: rest =>
      c = '/' &&
        (rest.all pathChar ||
          (!rest.isEmpty && rest.getLast? = some '\n' && rest.dropLast.all pathChar))

/-- The object-path grammar exactly as the spec writes it
(`^/[A-Za-z0-9_/]*$` as a whole-string grammar, spec §6): stated from the
spec's words to compare against the source's `re.match` behaviour. -/
def specPathGrammar (path : String) : Bool :=
  match path.data with
  | [] => false
  | c :: rest => c = '/' && rest.all pathChar

/-! ## Outbound operations: call, emit_signal, send_reply

Each operation is embedded up to and including its hand-off to
`Connection.send`; enqueueing the marshalled message is recorded by
appending the `Msg` itself to the send queue (marshalling is a pure
per-message function of the message, `src/xibus/message.py`).  The value
returned is the message that was produced, so traces of produced messages
can be inspected. -/

/-- `Connection.call` (connection.py lines 149–176) up to the hand-off of
the request to `send`: path validation, serial assignment, message
construction, reply-slot registration (unless `NO_REPLY_EXPECTED`), and
enqueueing.  On a validation failure the state is returned untouched,
mirroring the `raise` before any mutation. -/
def Conn.callStep (c : Conn) (dest path iface method : String)
    (body : List String) (sig : String) (flags : Nat) :
    Conn × Except PyErr Msg :=
  if !rePathMatch path then
    (c, .error (.invalidPath path))
  else
    let (s, c₁) := c.get_serial
    let request : Msg :=
      { typ := .METHOD_CALL, serial := s, destination := some dest,
        path := some path, iface := some iface, member := some method,
        body := body, sig := sig, flags := flags }
    if hasNoReply flags then
      ({ c₁ with sendQueue := c₁.sendQueue ++ [request] }, .ok request)
    else
      let c₂ := { c₁ with
        replies := aset c₁.replies s c₁.nextFuture,
        nextFuture := c₁.nextFuture + 1 }
      ({ c₂ with sendQueue := c₂.sendQueue ++ [request] }, .ok request)

/-- The `finally: self.replies.pop(request.serial, None)` clause of
`Connection.call` (connection.py line 176): executed when the caller
abandons the call (cancellation or error) as well as on completion. -/
def Conn.callCleanup (c : Conn) (serial : Nat) : Conn :=
  { c with replies := aerase c.replies serial }

/-- `Connection.emit_signal` (connection.py lines 188–203): path
validation, serial assignment, SIGNAL construction, enqueueing. -/
def Conn.emitSignalStep (c : Conn) (path iface signal : String)
    (body : List String) (sig : String) (flags : Nat) :
    Conn × Except PyErr Msg :=
  if !rePathMatch path then
    (c, .error (.invalidPath path))
  else
    let (s, c₁) := c.get_serial
    let msg : Msg :=
      { typ := .SIGNAL, serial := s, path := some path, iface := some iface,
        member := some signal, body := body, sig := sig, flags := flags }
    ({ c₁ with sendQueue := c₁.sendQueue ++ [msg] }, .ok msg)

/-- The outcome of `await handler(call)` in `send_reply`: either the
`(sig, body)` pair it returned, or the message of the exception it raised. -/
def HandlerResult := Except String (String × List String)

/-- `Connection.send_reply` (connection.py lines 205–230): build a
METHOD_RETURN from the handler result, or an ERROR named
`org.freedesktop.DBus.Error.AccessDenied` from the handler exception —
a serial is taken in either branch — then send the reply only if the
incoming call did not set `NO_REPLY_EXPECTED`.  Returns the message that
reached the send queue, if any. -/
def Conn.sendReplyStep (c : Conn) (call : Msg) (hres : HandlerResult) :
    Conn × Option Msg :=
  let (s, c₁) := c.get_serial
  let reply : Msg :=
    match hres with
    | .ok (sig, body) =>
        { typ := .METHOD_RETURN, serial := s, replySerial := some call.serial,
          destination := call.sender, body := body, sig := sig }
    | .error e =>
        { typ := .ERROR, serial := s, replySerial := some call.serial,
          destination := call.sender,
          errorName := some "org.freedesktop.DBus.Error.AccessDenied",
          body := [e], sig := "s" }
  if !hasNoReply call.flags then
    ({ c₁ with sendQueue := c₁.sendQueue ++ [reply] }, some reply)
  else
    (c₁, none)

/-! ## The read path -/

/-- Dispatch of one unmarshalled message in `Connection.on_read`
(connection.py lines 52–66).  Returns the new state and, when a pending
reply future was completed, that future's identifier with the message.
A message with a reply-serial that is not in the pending table falls
through both `if`s and is discarded without any effect; a METHOD_CALL is
routed via a plain dict subscript (`KeyError` when the destination has no
queue); a SIGNAL is fanned out to every signal queue; anything else is
`raise ValueError(msg)`. -/
def Conn.handleMsg (c : Conn) (m : Msg) :
    Except PyErr (Conn × Option (Nat × Msg)) :=
  match m.replySerial with
  | some rs =>
      match alookup c.replies rs with
      | some fut => .ok ({ c with replies := aerase c.replies rs }, some (fut, m))
      | none => .ok (c, none)
  | none =>
      if m.typ = .METHOD_CALL then
        match alookup c.callQueues m.destination with
        | some q =>
            .ok ({ c with callQueues := aset c.callQueues m.destination (q ++ [m]) },
              none)
        | none => .error (.keyError m.destination)
      else if m.typ = .SIGNAL then
        .ok ({ c with signalQueues := c.signalQueues.map (fun p => (p.1, p.2 ++ [m])) },
          none)
      else
        .error .valueError

/-! ## Teardown -/

/-- `Connection.__aexit__` (connection.py lines 119–125): clear the unique
name, deregister the reader and the writer, shut the socket down both ways
and close it.  No queue or table is touched. -/
def Conn.aexitStep (c : Conn) : Conn :=
  { c with
      uniqueName := none
      readerOn := false
      writerOn := false
      sockShut := true
      sockOpen := false }

/-! ## The write path

`Connection.on_write` and `Connection.send` (connection.py lines 68–84)
manipulate the send queue at the byte level: each queued chunk is the
marshalled bytes of one message together with its file descriptors and the
completion future.  `on_write` pops the head chunk, hands it to
`socket.send_fds` (which may transmit only a prefix), and on a partial
send re-prepends the unsent tail with an *empty* fd list.  The number of
bytes the kernel accepts is nondeterministic; it is supplied as an oracle. -/

/-- One entry of the byte-level send queue: `(buf, fds, future)`. -/
structure Chunk where
  buf : List Nat
  fds : List Nat
  fut : Nat
  deriving DecidableEq, Repr

/-- The write-path state: the send queue, the bytes handed to the kernel
so far in order, the fds handed to the kernel so far in order, the futures
completed so far, and the writer registration. -/
structure WState where
  queue : List Chunk
  wire : List Nat
  wireFds : List Nat
  done : List Nat
  writerOn : Bool
  deriving DecidableEq, Repr

/-- `Connection.on_write` (connection.py lines 68–77) for one
write-readiness event, with `size` the byte count `socket.send_fds`
reports (capped by the chunk length, as the kernel cannot send more than
it was given).  An empty queue deregisters the writer. -/
def onWrite (s : WState) (size : Nat) : WState :=
  match s.queue with
  | [] => { s with writerOn := false }
  | ch :: rest =>
      let k := min size ch.buf.length
      let s₁ := { s with
        queue := rest
        wire := s.wire ++ ch.buf.take k
        wireFds := s.wireFds ++ ch.fds }
      if k < ch.buf.length then
        { s₁ with queue := { buf := ch.buf.drop k, fds := [], fut := ch.fut } :: rest }
      else
        { s₁ with done := s₁.done ++ [ch.fut] }

/-- A run of the write path under a list of kernel-reported send sizes. -/
def runWrites (s : WState) : List Nat → WState
  | [] => s
  | size :: rest => runWrites (onWrite s size) rest

/-- The write-path state reached from a freshly enqueued message list. -/
def WState.ofQueue (q : List Chunk) : WState :=
  { queue := q, wire := [], wireFds := [], done := [], writerOn := true }

/-! ## Traces of outbound messages

The serial-monotonicity claims quantify over every sequence of outbound
messages a connection produces via `call`, `emit_signal` and `send_reply`;
`Op` is one invocation of one of those operations with its arguments, and
`runOps` the resulting trace of messages that reach the send queue. -/

/-- One outbound operation of a `Connection`, with its arguments. -/
inductive Op where
  | call (dest path iface method : String) (body : List String) (sig : String)
      (flags : Nat)
  | emitSignal (path iface signal : String) (body : List String) (sig : String)
      (flags : Nat)
  | sendReply (call : Msg) (hres : HandlerResult)

/-- Execute one outbound operation; return the new state and the messages
(zero or one) the operation handed to `send`. -/
def Conn.step (c : Conn) : Op → Conn × List Msg
  | .call dest path iface method body sig flags =>
      match c.callStep dest path iface method body sig flags with
      | (c', .ok m) => (c', [m])
      | (c', .error _) => (c', [])
  | .emitSignal path iface signal body sig flags =>
      match c.emitSignalStep path iface signal body sig flags with
      | (c', .ok m) => (c', [m])
      | (c', .error _) => (c', [])
  | .sendReply call hres =>
      match c.sendReplyStep call hres with
      | (c', some m) => (c', [m])
      | (c', none) => (c', [])

/-- Run a sequence of outbound operations, collecting every message that
reached the send queue, in order. -/
def Conn.runOps (c : Conn) : List Op → Conn × List Msg
  | [] => (c, [])
  | op :: rest =>
      (((c.step op).1.runOps rest).1, (c.step op).2 ++ ((c.step op).1.runOps rest).2)

/-! ## XML element trees

`src/xibus/schema.py` works on `xml.etree.ElementTree` elements; an
element is a tag, an attribute dict and a child list.  `fromstring` /
`tostring` / `indent` only move between this tree and its textual form
(whitespace and attribute order are not significant), so the schema layer
is embedded directly on trees. -/

/-- An XML element: tag, attributes (a dict — unique keys), children. -/
inductive Elem where
  | mk (tag : String) (attrs : List (String × String)) (children : List Elem)

/-- The element's tag. -/
def Elem.tag : Elem → String
  | .mk t _ _ => t

/-- The element's attributes. -/
def Elem.attrs : Elem → List (String × String)
  | .mk _ a _ => a

/-- The element's children. -/
def Elem.children : Elem → List Elem
  | .mk _ _ c => c

/-- `node.get(key)`: attribute lookup, `None` when absent. -/
def Elem.get (e : Elem) (key : String) : Option String :=
  alookup e.attrs key

/-- `node.findall(tag)`: the direct children with the given tag, in
document order. -/
def childrenTagged (e : Elem) (t : String) : List Elem :=
  e.children.filter (fun c => c.tag = t)

/-- All proper descendants of the elements of a list, in document order
(each element before its own descendants) — the spine of a `.//` path. -/
def descList : List Elem → List Elem
  | [] => []
  | .mk t a cs :: rest => .mk t a cs :: (descList cs ++ descList rest)

/-- `node.findall('.//tag')`: every proper descendant with the tag, in
document order. -/
def descTagged (e : Elem) (t : String) : List Elem :=
  (descList e.children).filter (fun c => c.tag = t)

/-- The ElementPath predicate `[@key!="value"]` as CPython implements it:
the element must *have* the attribute, with a different value; an element
without the attribute is not selected. -/
def neqAttr (e : Elem) (key value : String) : Bool :=
  match e.get key with
  | some v => v ≠ value
  | none => false

/-- `el(tag, attrs)` (schema.py lines 10–15) extended with the children
appended afterwards: attributes whose value is `None` are skipped. -/
def el (tag : String) (attrs : List (String × Option String))
    (children : List Elem) : Elem :=
  .mk tag (attrs.filterMap (fun p => p.2.map (fun v => (p.1, v)))) children

/-! ## The schema records and their parser / emitter (`schema.py`) -/

/-- A parsed `<arg>`: `(name, type)` as `get_all_ordered` pairs it with
`parse_arg` (schema.py lines 18–31) — either attribute may be absent. -/
def Arg := Option String × Option String
deriving instance DecidableEq, Repr for Arg

/-- `parse_arg` (schema.py lines 30–31). -/
def parse_arg (n : Elem) : Option String :=
  n.get "type"

/-- `get_all_ordered(node, sel, parse)` (schema.py lines 18–19) applied to
an already-selected element list. -/
def get_all_ordered {α : Type} (l : List Elem) (parse : Elem → α) :
    List (Option String × α) :=
  l.map (fun n => (n.get "name", parse n))

/-- The `Method` record (schema.py line 5). -/
structure Method where
  args : List Arg
  returns : List Arg
  deriving DecidableEq, Repr

/-- `Method.parse` (schema.py lines 43–49): `.//arg[@direction!="out"]`
for the inputs and `.//arg[@direction!="in"]` for the outputs — descendant
search, and the `!=` predicate selects only args that carry a `direction`
attribute with a different value. -/
def Method.parse (node : Elem) : Method where
  args := get_all_ordered
    ((descTagged node "arg").filter (fun a => neqAttr a "direction" "out")) parse_arg
  returns := get_all_ordered
    ((descTagged node "arg").filter (fun a => neqAttr a "direction" "in")) parse_arg

/-- `unparse_arg` (schema.py lines 34–39); attribute order
name, direction, type, `None` values skipped. -/
def unparse_arg (name : Option String) (typ : Option String)
    (direction : Option String) : Elem :=
  el "arg" [("name", name), ("direction", direction), ("type", typ)] []

/-- `Method.unparse` (schema.py lines 51–57): the inputs with
`direction="in"`, then the outputs with `direction="out"`. -/
def Method.unparse (m : Method) (name : Option String) : Elem :=
  el "method" [("name", name)]
    (m.args.map (fun a => unparse_arg a.1 a.2 (some "in")) ++
      m.returns.map (fun a => unparse_arg a.1 a.2 (some "out")))

/-- The `Property` record (schema.py line 4). -/
structure Property where
  typ : Option String
  access : Option String
  deriving DecidableEq, Repr

/-- `Property.parse` (schema.py lines 61–66). -/
def Property.parse (node : Elem) : Property where
  typ := node.get "type"
  access := node.get "access"

/-- `Property.unparse` (schema.py lines 68–73); attribute order
name, type, access. -/
def Property.unparse (p : Property) (name : Option String) : Elem :=
  el "property" [("name", name), ("type", p.typ), ("access", p.access)] []

/-- The `Signal` record (schema.py line 6). -/
structure Signal where
  args : List Arg
  deriving DecidableEq, Repr

/-- `Signal.parse` (schema.py lines 77–81): plain `arg` selector — the
direct children with tag `arg`, direction ignored. -/
def Signal.parse (node : Elem) : Signal where
  args := get_all_ordered (childrenTagged node "arg") parse_arg

/-- `Signal.unparse` (schema.py lines 83–87): args without direction. -/
def Signal.unparse (s : Signal) (name : Option String) : Elem :=
  el "signal" [("name", name)] (s.args.map (fun a => unparse_arg a.1 a.2 none))

/-- The `Interface` record (schema.py line 7). -/
structure Interface where
  methods : List (Option String × Method)
  properties : List (Option String × Property)
  signals : List (Option String × Signal)
  deriving DecidableEq, Repr

/-- `Interface.parse` (schema.py lines 91–97): three `get_all` maps —
`dict(get_all_ordered(...))` with Python dict construction. -/
def Interface.parse (node : Elem) : Interface where
  methods := pydict (get_all_ordered (childrenTagged node "method") Method.parse)
  properties := pydict (get_all_ordered (childrenTagged node "property") Property.parse)
  signals := pydict (get_all_ordered (childrenTagged node "signal") Signal.parse)

/-- `Interface.unparse` (schema.py lines 99–107): methods, then
properties, then signals. -/
def Interface.unparse (i : Interface) (name : Option String) : Elem :=
  el "interface" [("name", name)]
    (i.methods.map (fun p => p.2.unparse p.1) ++
      i.properties.map (fun p => p.2.unparse p.1) ++
      i.signals.map (fun p => p.2.unparse p.1))

/-- The `Schema` record (schema.py lines 110–113). -/
structure Schema where
  interfaces : List (Option String × Interface)
  nodes : List (Option String)
  deriving DecidableEq, Repr

/-- `Schema.from_xml` (schema.py lines 135–141) on the parsed tree. -/
def Schema.from_xml (tree : Elem) : Schema where
  interfaces := pydict (get_all_ordered (childrenTagged tree "interface") Interface.parse)
  nodes := (childrenTagged tree "node").map (fun n => n.get "name")

/-- `Schema.to_xml` (schema.py lines 143–150) up to serialisation: the
emitted element tree (indentation and the XML declaration carry no
declared content). -/
def Schema.to_xml (s : Schema) : Elem :=
  el "node" []
    (s.interfaces.map (fun p => p.2.unparse p.1) ++
      s.nodes.map (fun n => el "node" [("name", n)] []))

/-! ## The declared content of an introspection document

Modelled from the spec: §4.4's parser subset — "the document root declares
child `<interface>` elements (each with `name`, containing `<method>`,
`<property>`, `<signal>` elements) and child `<node name="…"/>` elements.
Methods contain `<arg type="…" direction="in|out"/>` (default direction is
`in`).  Properties carry `type` and `access`.  Signals carry
`arg type="…"` without direction", together with §3's Schema data model
(three ordered member mappings per interface, plus child node names).
`specDeclares` reads a document into that structure and is the judge for
"declares the same interfaces and members in the same member order with
the same attributes" in the round-trip property. -/

/-- The `(name, type)` attributes an `<arg>` declares. -/
def specArg (n : Elem) : Arg :=
  (n.get "name", n.get "type")

/-- Whether an `<arg>` declares the given direction, defaulting to `in`
when the attribute is absent (spec §4.4). -/
def specDirIs (n : Elem) (d : String) : Bool :=
  ((n.get "direction").getD "in") = d

/-- The method a `<method>` element declares: its `in` args (explicit or
defaulted) and its `out` args, in document order. -/
def specMethodOf (e : Elem) : Method where
  args := ((childrenTagged e "arg").filter (fun a => specDirIs a "in")).map specArg
  returns := ((childrenTagged e "arg").filter (fun a => specDirIs a "out")).map specArg

/-- The property a `<property>` element declares. -/
def specPropertyOf (e : Elem) : Property where
  typ := e.get "type"
  access := e.get "access"

/-- The signal a `<signal>` element declares. -/
def specSignalOf (e : Elem) : Signal where
  args := (childrenTagged e "arg").map specArg

/-- The interface an `<interface>` element declares: its methods,
properties and signals, each ordered as in the document. -/
def specInterfaceOf (e : Elem) : Interface where
  methods := (childrenTagged e "method").map (fun m => (m.get "name", specMethodOf m))
  properties := (childrenTagged e "property").map (fun p => (p.get "name", specPropertyOf p))
  signals := (childrenTagged e "signal").map (fun s => (s.get "name", specSignalOf s))

/-- Everything an introspection document declares. -/
def specDeclares (root : Elem) : Schema where
  interfaces := (childrenTagged root "interface").map
    (fun i => (i.get "name", specInterfaceOf i))
  nodes := (childrenTagged root "node").map (fun n => n.get "name")

/-! ## Well-formedness of introspection documents

The subset the round-trip theorem quantifies over: every `<arg>` of a
method is a leaf carrying an explicit `direction` of `in` or `out`, every
non-arg child of a method is absent, and member and interface names do not
repeat (well-behaved peers declare each member once). -/

/-- A method's `<arg>` child in the explicit-direction subset: a leaf
with `direction="in"` or `direction="out"`. -/
def WfMethodArg (a : Elem) : Prop :=
  a.tag = "arg" ∧ a.children.isEmpty ∧
    (a.get "direction" = some "in" ∨ a.get "direction" = some "out")

instance : DecidablePred WfMethodArg := fun a => by
  unfold WfMethodArg; infer_instance

/-- A well-formed `<interface>` element: every child of a method is an
explicit-direction leaf arg, and the names of its methods, properties and
signals are each free of repetitions. -/
def WfInterface (e : Elem) : Prop :=
  (∀ m ∈ childrenTagged e "method", ∀ a ∈ m.children, WfMethodArg a) ∧
    ((childrenTagged e "method").map (fun m => m.get "name")).Nodup ∧
    ((childrenTagged e "property").map (fun p => p.get "name")).Nodup ∧
    ((childrenTagged e "signal").map (fun s => s.get "name")).Nodup

instance : DecidablePred WfInterface := fun e => by
  unfold WfInterface; infer_instance

/-- A well-formed introspection document: well-formed interfaces with
distinct names. -/
def WfDoc (root : Elem) : Prop :=
  (∀ i ∈ childrenTagged root "interface", WfInterface i) ∧
    ((childrenTagged root "interface").map (fun i => i.get "name")).Nodup

instance : DecidablePred WfDoc := fun root => by
  unfold WfDoc; infer_instance

/-! ## The high-level client (`src/xibus/client.py`)

`Client.call` (client.py lines 81–91): look the method up in the
introspected schema, default the signature to the concatenation of the
input args' type codes, delegate to `Connection.call`, and unwrap the
reply body according to the method's return arity.  The wire round trip
`Connection.call` is abstracted as a function from the signature actually
sent to the reply body. -/

/-- `''.join([v for _, v in args])` — Python raises `TypeError` when a
type code is `None`. -/
def joinTypes : List Arg → Except PyErr String
  | [] => .ok ""
  | (_, none) :: _ => .error .typeError
  | (_, some t) :: rest => (joinTypes rest).map (fun s => t ++ s)

/-- What `Client.call` returns: nothing, the unwrapped singleton, or the
full body sequence. -/
inductive CallValue where
  | nothing
  | single (v : String)
  | sequence (vs : List String)
  deriving DecidableEq, Repr

/-- `Client.call` (client.py lines 81–91), given the cached schema and
the connection's reply body as a function `con` of the signature sent:
`schema.interfaces[iface].methods[method]` (a dict subscript —
`KeyError` when absent), the signature default, the delegated call, and
the unwrap of the result by `len(m.returns)`.  Returns the signature that
was sent together with the value handed back to the caller. -/
def Client.call (schema : Schema) (iface method : String)
    (sig : Option String) (con : String → List String) :
    Except PyErr (String × CallValue) := do
  let ifc ← match alookup schema.interfaces (some iface) with
    | some ifc => pure ifc
    | none => .error (.keyError (some iface))
  let m ← match alookup ifc.methods (some method) with
    | some m => pure m
    | none => .error (.keyError (some method))
  let sigSent ← match sig with
    | some s => pure s
    | none => joinTypes m.args
  let result := con sigSent
  if m.returns.length = 1 then
    match result.head? with
    | some v => pure (sigSent, .single v)
    | none => .error .indexError
  else if m.returns.length > 1 then
    pure (sigSent, .sequence result)
  else
    pure (sigSent, .nothing)

/-! # Theorems -/

/-! ## Association-list facts -/

/-- A key that occurs in no pair is not found. -/
theorem alookup_eq_none_of_not_mem {κ α : Type} [DecidableEq κ]
    (l : List (κ × α)) (k : κ) (h : k ∉ l.map Prod.fst) :
    alookup l k = none := by
  induction l with
  | nil => rfl
  | cons p rest ih =>
      simp only [List.map_cons, List.mem_cons, not_or] at h
      simp only [alookup, if_neg (fun hk : p.1 = k => h.1 hk.symm), ih h.2]

/-- Popping a key from a dict (unique keys) removes it. -/
theorem alookup_aerase_self {κ α : Type} [DecidableEq κ]
    (l : List (κ × α)) (k : κ) (h : (l.map Prod.fst).Nodup) :
    alookup (aerase l k) k = none := by
  induction l with
  | nil => rfl
  | cons p rest ih =>
      simp only [List.map_cons, List.nodup_cons] at h
      by_cases hk : p.1 = k
      · simp only [aerase, if_pos hk]
        exact alookup_eq_none_of_not_mem rest k (hk ▸ h.1)
      · simp only [aerase, if_neg hk, alookup, if_neg hk]
        exact ih h.2

/-! ## Serial monotonicity (C1, C10) -/

/-- One outbound operation never decreases the serial counter, produces at
most one message, and any message it produces carries a serial in
`(c.serial, c'.serial]`. -/
theorem step_bounds (c : Conn) (op : Op) :
    c.serial ≤ (c.step op).1.serial ∧
      (c.step op).2.length ≤ 1 ∧
      ∀ m ∈ (c.step op).2, c.serial < m.serial ∧ m.serial ≤ (c.step op).1.serial := by
  cases op with
  | call dest path iface method body sig flags =>
      by_cases h : rePathMatch path
      · by_cases hf : hasNoReply flags <;>
          simp [Conn.step, Conn.callStep, Conn.get_serial, h, hf]
      · simp [Conn.step, Conn.callStep, h]
  | emitSignal path iface signal body sig flags =>
      by_cases h : rePathMatch path <;>
        simp [Conn.step, Conn.emitSignalStep, Conn.get_serial, h]
  | sendReply call hres =>
      by_cases hf : hasNoReply call.flags <;> cases hres <;>
        simp [Conn.step, Conn.sendReplyStep, Conn.get_serial, hf]

/-- A list of at most one element is trivially sorted. -/
theorem pairwise_of_length_le_one {α : Type} (R : α → α → Prop) :
    ∀ l : List α, l.length ≤ 1 → l.Pairwise R
  | [], _ => List.Pairwise.nil
  | [_], _ => List.pairwise_singleton _ _
  | _ :: _ :: _, h => absurd h (by simp)

/-- Across a whole run of outbound operations the serial counter never
decreases, every produced message's serial lies in
`(c.serial, final serial]`, and the produced serials are strictly
increasing. -/
theorem runOps_bounds (c : Conn) (ops : List Op) :
    c.serial ≤ (c.runOps ops).1.serial ∧
      (∀ m ∈ (c.runOps ops).2,
        c.serial < m.serial ∧ m.serial ≤ (c.runOps ops).1.serial) ∧
      ((c.runOps ops).2.map Msg.serial).Pairwise (· < ·) := by
  induction ops generalizing c with
  | nil => simp [Conn.runOps]
  | cons op rest ih =>
      obtain ⟨h1, hlen, h2⟩ := step_bounds c op
      obtain ⟨ih1, ih2, ih3⟩ := ih (c.step op).1
      refine ⟨?_, ?_, ?_⟩
      · simpa [Conn.runOps] using le_trans h1 ih1
      · intro m hm
        simp only [Conn.runOps, List.mem_append] at hm
        rcases hm with hm | hm
        · exact ⟨(h2 m hm).1, by simpa [Conn.runOps] using le_trans (h2 m hm).2 ih1⟩
        · exact ⟨lt_of_le_of_lt h1 (ih2 m hm).1, by simpa [Conn.runOps] using (ih2 m hm).2⟩
      · simp only [Conn.runOps, List.map_append, List.pairwise_append]
        refine ⟨List.Pairwise.map _ (fun a b hab => hab) ?_, ih3, ?_⟩
        · exact List.Pairwise.imp (fun hab => hab)
            (pairwise_of_length_le_one (fun a b : Msg => a.serial < b.serial) _
              (by simpa using hlen))
        · intro a ha b hb
          simp only [List.mem_map] at ha hb
          obtain ⟨ma, hma, rfl⟩ := ha
          obtain ⟨mb, hmb, rfl⟩ := hb
          exact lt_of_le_of_lt (h2 ma hma).2 (ih2 mb hmb).1

/-- **C1.** For every sequence of outbound operations (`call`,
`emit_signal`, `send_reply`) executed from a fresh connection, the serials
of the messages handed to the send path are strictly increasing across the
sequence and none of them is zero: `get_serial` starts the counter at 0
and increments before each use, so no serial is ever reused. -/
theorem serials_strictly_increasing_and_nonzero (ops : List Op) :
    ((Conn.init.runOps ops).2.map Msg.serial).Pairwise (· < ·) ∧
      ∀ m ∈ (Conn.init.runOps ops).2, m.serial ≠ 0 := by
  obtain ⟨-, h2, h3⟩ := runOps_bounds Conn.init ops
  refine ⟨h3, fun m hm => ?_⟩
  have := (h2 m hm).1
  simp only [Conn.init] at this
  omega

/-! ## Path validation (C2) -/

/-- **C2.** The claim says every path outside the grammar
`^/[A-Za-z0-9_/]*$` is rejected with INVALID_PATH before any byte is
sent.  The code checks the path with Python's `re.match`, whose `$` also
matches just before a trailing newline, so the grammar-violating path
`"/a\n"` is *accepted*: `call` and `emit_signal` assign it serial 1,
build the message and enqueue it for sending instead of failing. -/
theorem grammar_violating_path_accepted :
    specPathGrammar "/a\n" = false ∧
      rePathMatch "/a\n" = true ∧
      (Conn.init.callStep "dest" "/a\n" "ifc" "mth" [] "" 0).2 = .ok
        { typ := .METHOD_CALL, serial := 1, destination := some "dest",
          path := some "/a\n", iface := some "ifc", member := some "mth",
          body := [], sig := "", flags := 0 } ∧
      (Conn.init.callStep "dest" "/a\n" "ifc" "mth" [] "" 0).1.sendQueue ≠ [] ∧
      (Conn.init.emitSignalStep "/a\n" "ifc" "sgn" [] "" 0).2 = .ok
        { typ := .SIGNAL, serial := 1, path := some "/a\n", iface := some "ifc",
          member := some "sgn", body := [], sig := "", flags := 0 } := by
  decide

/-! ## Reply routing after abandonment (C3) -/

/-- **C3 (counterexample).** The claim says an incoming message whose
reply-serial is not in the pending table is treated as a PROTOCOL error.
It is not: `on_read` checks `msg.reply_serial in self.replies` and, when
the serial is absent, simply falls through — the message is discarded
with no error of any kind and the state (here holding an unrelated
pending slot for serial 7) is untouched. -/
theorem unmatched_reply_dropped_without_error :
    Conn.handleMsg { Conn.init with replies := [(7, 0)] }
        { typ := .METHOD_RETURN, serial := 9, replySerial := some 3 } =
      .ok ({ Conn.init with replies := [(7, 0)] }, none) := by
  rfl

/-- **C3 (amended).** When a caller abandons an outstanding call, the
`finally` clause removes its reply slot from the pending table; any later
incoming message whose reply-serial is not in the pending table is then
dropped *silently* — no error is raised or logged, the state is unchanged,
and in particular no unrelated pending future is ever resolved. -/
theorem abandoned_slot_removed_and_unmatched_reply_dropped :
    (∀ (c : Conn) (s : Nat), (c.replies.map Prod.fst).Nodup →
        alookup (c.callCleanup s).replies s = none) ∧
      ∀ (c : Conn) (m : Msg) (rs : Nat), m.replySerial = some rs →
        alookup c.replies rs = none → c.handleMsg m = .ok (c, none) := by
  constructor
  · intro c s h
    exact alookup_aerase_self c.replies s h
  · intro c m rs hrs hnone
    simp only [Conn.handleMsg, hrs, hnone]

/-- **C3 (witness).** The amended theorem applied at concrete inputs: a
pending table holding only serial 5, cleaned up for serial 5; and a
METHOD_RETURN for the now-absent serial 5 arriving at a connection whose
table holds only an unrelated slot for serial 7. -/
theorem abandoned_slot_removed_and_unmatched_reply_dropped_witness :
    alookup (Conn.callCleanup { Conn.init with replies := [(5, 0)] } 5).replies 5 =
        none ∧
      Conn.handleMsg { Conn.init with replies := [(7, 1)] }
          { typ := .METHOD_RETURN, serial := 9, replySerial := some 5 } =
        .ok ({ Conn.init with replies := [(7, 1)] }, none) :=
  ⟨abandoned_slot_removed_and_unmatched_reply_dropped.1
      { Conn.init with replies := [(5, 0)] } 5 (by decide),
    abandoned_slot_removed_and_unmatched_reply_dropped.2
      { Conn.init with replies := [(7, 1)] }
      { typ := .METHOD_RETURN, serial := 9, replySerial := some 5 } 5 rfl (by decide)⟩

/-! ## Incoming METHOD_CALL with no registered queue (C4) -/

/-- **C4 (counterexample).** The claim says a METHOD_CALL whose
destination has no registered call queue is dropped silently with no
error.  The code routes with a plain dict subscript
(`self.call_queues[msg.destination]`), so on a fresh connection (no call
queues) the read path raises `KeyError` instead. -/
theorem unregistered_destination_raises_keyerror :
    Conn.handleMsg Conn.init
        { typ := .METHOD_CALL, serial := 3, destination := some "x" } =
      .error (.keyError (some "x")) := by
  rfl

/-- **C4 (amended).** For every incoming METHOD_CALL whose destination
has no registered call queue, the read path raises a `KeyError` carrying
the destination (the message is not routed and no reply is sent); it is
not dropped silently. -/
theorem method_call_unregistered_destination_keyerror (c : Conn) (m : Msg)
    (h1 : m.replySerial = none) (h2 : m.typ = .METHOD_CALL)
    (h3 : alookup c.callQueues m.destination = none) :
    c.handleMsg m = .error (.keyError m.destination) := by
  simp [Conn.handleMsg, h1, h2, h3]

/-- **C4 (witness).** The amended theorem at a concrete input. -/
theorem method_call_unregistered_destination_keyerror_witness :
    Conn.handleMsg Conn.init
        { typ := .METHOD_CALL, serial := 4, destination := some "org.example" } =
      .error (.keyError (some "org.example")) :=
  method_call_unregistered_destination_keyerror Conn.init
    { typ := .METHOD_CALL, serial := 4, destination := some "org.example" }
    rfl rfl (by decide)

/-! ## Teardown (C9) -/

/-- **C9 (counterexample).** The claim says closing empties the
pending-reply table, send queue, signal queues and call queues.
`__aexit__` touches none of them: closing a connection that still holds a
pending reply slot, a queued message, a call queue and a signal queue
leaves all four exactly as they were. -/
theorem close_leaves_queues_untouched :
    (Conn.aexitStep { Conn.init with
        replies := [(5, 0)],
        sendQueue := [{ typ := .SIGNAL, serial := 1 }],
        callQueues := [(some "n", [])],
        signalQueues := [(0, [])] }).replies = [(5, 0)] ∧
      (Conn.aexitStep { Conn.init with
        replies := [(5, 0)],
        sendQueue := [{ typ := .SIGNAL, serial := 1 }],
        callQueues := [(some "n", [])],
        signalQueues := [(0, [])] }).sendQueue ≠ [] ∧
      (Conn.aexitStep { Conn.init with
        replies := [(5, 0)],
        sendQueue := [{ typ := .SIGNAL, serial := 1 }],
        callQueues := [(some "n", [])],
        signalQueues := [(0, [])] }).callQueues ≠ [] ∧
      (Conn.aexitStep { Conn.init with
        replies := [(5, 0)],
        sendQueue := [{ typ := .SIGNAL, serial := 1 }],
        callQueues := [(some "n", [])],
        signalQueues := [(0, [])] }).signalQueues ≠ [] := by
  refine ⟨rfl, ?_, ?_, ?_⟩ <;> simp [Conn.aexitStep]

/-- **C9 (amended).** Closing a connection deregisters both the
read-readiness and the write-readiness callback, shuts the socket down
bidirectionally and closes it, and clears the unique name — but it leaves
the pending-reply table, the send queue, the call queues and the signal
queues exactly as they were (no queue is dropped or emptied). -/
theorem close_deregisters_and_shuts_down (c : Conn) :
    (c.aexitStep).readerOn = false ∧
      (c.aexitStep).writerOn = false ∧
      (c.aexitStep).sockShut = true ∧
      (c.aexitStep).sockOpen = false ∧
      (c.aexitStep).uniqueName = none ∧
      (c.aexitStep).replies = c.replies ∧
      (c.aexitStep).sendQueue = c.sendQueue ∧
      (c.aexitStep).callQueues = c.callQueues ∧
      (c.aexitStep).signalQueues = c.signalQueues := by
  simp [Conn.aexitStep]

/-! ## Suppressed replies still consume a serial (C10) -/

/-- **C10.** When the incoming call set `NO_REPLY_EXPECTED`, `send_reply`
runs the handler (success or failure alike), allocates a serial for the
reply it builds, and then sends nothing: the state change is exactly the
serial increment, so the serial taken by the suppressed reply is skipped
on the wire and wire serials are strictly increasing but not necessarily
consecutive. -/
theorem suppressed_reply_consumes_serial (c : Conn) (call : Msg)
    (hres : HandlerResult) (h : hasNoReply call.flags = true) :
    c.sendReplyStep call hres = ({ c with serial := c.serial + 1 }, none) := by
  cases hres <;> simp [Conn.sendReplyStep, Conn.get_serial, h]

/-- **C10 (witness).** A NO_REPLY_EXPECTED call whose handler returns
`("s", ["ok"])`: the reply is suppressed and only the serial moves. -/
theorem suppressed_reply_consumes_serial_witness :
    Conn.sendReplyStep Conn.init
        { typ := .METHOD_CALL, serial := 7, flags := 1, sender := some ":1.5" }
        (.ok ("s", ["ok"])) =
      ({ Conn.init with serial := 1 }, none) :=
  suppressed_reply_consumes_serial Conn.init
    { typ := .METHOD_CALL, serial := 7, flags := 1, sender := some ":1.5" }
    (.ok ("s", ["ok"])) (by decide)

/-! ## The write path sends in order, contiguously, fds once (C8) -/

/-- Reassociation of `take`/`drop` around a common tail. -/
theorem take_drop_chain {α : Type} (n : Nat) (l X : List α) :
    List.take n l ++ (List.drop n l ++ X) = l ++ X := by
  rw [← List.append_assoc, List.take_append_drop]

/-- One write-readiness event preserves the stream: the bytes already on
the wire followed by the bytes still queued are a constant, and likewise
for the file descriptors (a partial send moves the sent prefix and all
the fds of the head message to the wire and re-queues the tail with an
empty fd list). -/
theorem onWrite_preserves_stream (s : WState) (size : Nat) :
    (onWrite s size).wire ++ (((onWrite s size).queue.map Chunk.buf).flatten) =
        s.wire ++ ((s.queue.map Chunk.buf).flatten) ∧
      (onWrite s size).wireFds ++ (((onWrite s size).queue.map Chunk.fds).flatten) =
        s.wireFds ++ ((s.queue.map Chunk.fds).flatten) := by
  match hq : s.queue with
  | [] => simp [onWrite, hq]
  | ch :: rest =>
      by_cases hlt : size < ch.buf.length
      · have hmin : min size ch.buf.length = size := min_eq_left (le_of_lt hlt)
        constructor
        · simp [onWrite, hq, hmin, hlt, take_drop_chain]
        · simp [onWrite, hq, hmin, hlt]
      · have hmin : min size ch.buf.length = ch.buf.length := by omega
        constructor
        · simp [onWrite, hq, hmin, hlt]
        · simp [onWrite, hq, hmin, hlt]

/-- A whole run of write-readiness events, under any sequence of
kernel-reported send sizes, preserves the stream. -/
theorem runWrites_preserves_stream (sizes : List Nat) (s : WState) :
    (runWrites s sizes).wire ++ (((runWrites s sizes).queue.map Chunk.buf).flatten) =
        s.wire ++ ((s.queue.map Chunk.buf).flatten) ∧
      (runWrites s sizes).wireFds ++
          (((runWrites s sizes).queue.map Chunk.fds).flatten) =
        s.wireFds ++ ((s.queue.map Chunk.fds).flatten) := by
  induction sizes generalizing s with
  | nil => exact ⟨rfl, rfl⟩
  | cons k rest ih =>
      obtain ⟨h1, h2⟩ := onWrite_preserves_stream s k
      obtain ⟨ih1, ih2⟩ := ih (onWrite s k)
      exact ⟨by simpa [runWrites, ih1] using h1, by simpa [runWrites, ih2] using h2⟩

/-- **C8.** For every initial send queue and every schedule of partial
sends, the byte stream handed to the kernel plus the bytes still queued
is exactly the enqueue-order concatenation of the messages' bytes — the
write path sends strictly in enqueue order and never interleaves two
messages — and the fds handed to the kernel plus the fds still queued is
exactly the enqueue-order concatenation of the messages' fds: each
message's fds go to the kernel exactly once, with its first fragment,
because a partially sent tail is re-queued at the head with an empty fd
list. -/
theorem write_path_in_order_contiguous_fds_once (q : List Chunk)
    (sizes : List Nat) :
    (runWrites (WState.ofQueue q) sizes).wire ++
          (((runWrites (WState.ofQueue q) sizes).queue.map Chunk.buf).flatten) =
        ((q.map Chunk.buf).flatten) ∧
      (runWrites (WState.ofQueue q) sizes).wireFds ++
          (((runWrites (WState.ofQueue q) sizes).queue.map Chunk.fds).flatten) =
        ((q.map Chunk.fds).flatten) := by
  obtain ⟨h1, h2⟩ := runWrites_preserves_stream sizes (WState.ofQueue q)
  exact ⟨by simpa [WState.ofQueue] using h1, by simpa [WState.ofQueue] using h2⟩

/-! ## Client.call: default signature and unwrapping (C7) -/

/-- The concatenation, in order, of the type-codes of a list of args. -/
def concatTypeCodes (l : List Arg) : String :=
  l.foldr (fun a s => a.2.getD "" ++ s) ""

/-- When every arg carries a type code, `''.join` succeeds and returns
the in-order concatenation of the codes. -/
theorem joinTypes_of_isSome :
    ∀ l : List Arg, (∀ a ∈ l, a.2.isSome) →
      joinTypes l = .ok (concatTypeCodes l)
  | [], _ => rfl
  | (n, none) :: _, h => by
      have := h (n, none) (List.mem_cons_self _ _)
      simp at this
  | (n, some t) :: rest, h => by
      have ih := joinTypes_of_isSome rest (fun a ha => h a (List.mem_cons_of_mem _ ha))
      simp [joinTypes, concatTypeCodes, ih]
      rfl

/-- **C7.** For a `Client.call` whose method exists in the cached schema:
with the signature argument omitted, the signature sent on the wire is
the concatenation, in order, of the type-codes of the method's input
args; and the value handed back to the caller is the single body element
when the method's returns list has exactly one entry, the full body
sequence when it has more than one, and nothing when it has zero. -/
theorem client_call_default_signature_and_unwrap
    (schema : Schema) (iface method : String) (ifc : Interface) (m : Method)
    (con : String → List String)
    (h1 : alookup schema.interfaces (some iface) = some ifc)
    (h2 : alookup ifc.methods (some method) = some m)
    (h3 : ∀ a ∈ m.args, a.2.isSome)
    (h4 : m.returns.length = 1 → con (concatTypeCodes m.args) ≠ []) :
    (m.returns.length = 1 →
      Client.call schema iface method none con =
        .ok (concatTypeCodes m.args,
          .single ((con (concatTypeCodes m.args)).headD ""))) ∧
      (1 < m.returns.length →
        Client.call schema iface method none con =
          .ok (concatTypeCodes m.args, .sequence (con (concatTypeCodes m.args)))) ∧
      (m.returns.length = 0 →
        Client.call schema iface method none con =
          .ok (concatTypeCodes m.args, .nothing)) := by
  have hj := joinTypes_of_isSome m.args h3
  refine ⟨fun hlen => ?_, fun hlen => ?_, fun hlen => ?_⟩
  · have hne := h4 hlen
    match hcon : con (concatTypeCodes m.args) with
    | [] => exact absurd hcon hne
    | v :: vs =>
        simp [Client.call, Bind.bind, Except.bind, pure, Except.pure, h1, h2, hj, hlen, hcon]
  · have h1' : m.returns.length ≠ 1 := by omega
    simp [Client.call, Bind.bind, Except.bind, pure, Except.pure, h1, h2, hj, h1', hlen]
  · simp [Client.call, Bind.bind, Except.bind, pure, Except.pure, h1, h2, hj, hlen]

/-- **C7 (witness).** A schema holding one interface `I` with one method
`M` of input args `(s, u)` and a single return: the signature defaults to
`"su"` and the singleton reply body `["42"]` is unwrapped to `"42"`. -/
theorem client_call_default_signature_and_unwrap_witness :
    Client.call
        { interfaces := [(some "I",
            { methods := [(some "M",
                { args := [(none, some "s"), (none, some "u")],
                  returns := [(none, some "u")] })],
              properties := [], signals := [] })],
          nodes := [] }
        "I" "M" none (fun _ => ["42"]) = .ok ("su", .single "42") := by
  have h := (client_call_default_signature_and_unwrap
    { interfaces := [(some "I",
        { methods := [(some "M",
            { args := [(none, some "s"), (none, some "u")],
              returns := [(none, some "u")] })],
          properties := [], signals := [] })],
      nodes := [] }
    "I" "M"
    { methods := [(some "M",
        { args := [(none, some "s"), (none, some "u")],
          returns := [(none, some "u")] })],
      properties := [], signals := [] }
    { args := [(none, some "s"), (none, some "u")],
      returns := [(none, some "u")] }
    (fun _ => ["42"]) (by decide) (by decide) (by decide) (by decide)).1 rfl
  simpa using h

/-! ## XML tree facts -/

@[simp] theorem Elem.tag_mk (t : String) (a : List (String × String))
    (c : List Elem) : (Elem.mk t a c).tag = t := rfl

@[simp] theorem Elem.attrs_mk (t : String) (a : List (String × String))
    (c : List Elem) : (Elem.mk t a c).attrs = a := rfl

@[simp] theorem Elem.children_mk (t : String) (a : List (String × String))
    (c : List Elem) : (Elem.mk t a c).children = c := rfl

@[simp] theorem el_tag (t : String) (attrs : List (String × Option String))
    (ch : List Elem) : (el t attrs ch).tag = t := rfl

@[simp] theorem el_children (t : String) (attrs : List (String × Option String))
    (ch : List Elem) : (el t attrs ch).children = ch := rfl

/-- A list whose elements are all leaves is its own descendant list. -/
theorem descList_of_leaves :
    ∀ l : List Elem, (∀ e ∈ l, e.children = []) → descList l = l
  | [], _ => by simp [descList]
  | .mk t a cs :: rest, h => by
      have hcs : cs = [] := h (.mk t a cs) (List.mem_cons_self _ _)
      subst hcs
      simp [descList, descList_of_leaves rest (fun e he => h e (List.mem_cons_of_mem _ he))]

/-- A filter by tag keeps a mapped list all of whose images carry the tag. -/
theorem filter_tag_of_all {α : Type} (f : α → Elem) (l : List α) (t : String)
    (h : ∀ x, (f x).tag = t) :
    (l.map f).filter (fun c => c.tag = t) = l.map f := by
  rw [List.filter_eq_self]
  intro e he
  obtain ⟨x, -, rfl⟩ := List.mem_map.mp he
  simp [h x]

/-- A filter by tag drops a mapped list none of whose images carry it. -/
theorem filter_tag_of_none {α : Type} (f : α → Elem) (l : List α) (t : String)
    (h : ∀ x, (f x).tag ≠ t) :
    (l.map f).filter (fun c => c.tag = t) = [] := by
  rw [List.filter_eq_nil_iff]
  intro e he
  obtain ⟨x, -, rfl⟩ := List.mem_map.mp he
  simp [h x]

@[simp] theorem unparse_arg_tag (n ty dir : Option String) :
    (unparse_arg n ty dir).tag = "arg" := rfl

@[simp] theorem unparse_arg_get_name (n ty dir : Option String) :
    (unparse_arg n ty dir).get "name" = n := by
  cases n <;> cases ty <;> cases dir <;> simp [unparse_arg, el, Elem.get, alookup]

@[simp] theorem unparse_arg_get_type (n ty dir : Option String) :
    (unparse_arg n ty dir).get "type" = ty := by
  cases n <;> cases ty <;> cases dir <;> simp [unparse_arg, el, Elem.get, alookup]

@[simp] theorem unparse_arg_get_direction (n ty dir : Option String) :
    (unparse_arg n ty dir).get "direction" = dir := by
  cases n <;> cases ty <;> cases dir <;> simp [unparse_arg, el, Elem.get, alookup]

@[simp] theorem el_get_name_of_head (t : String) (n : Option String)
    (rest : List (String × Option String)) (ch : List Elem)
    (h : ∀ p ∈ rest, p.1 ≠ "name") :
    (el t (("name", n) :: rest) ch).get "name" = n := by
  cases n with
  | none =>
      simp only [el, Elem.get, List.filterMap_cons, Option.map_none]
      induction rest with
      | nil => rfl
      | cons q qrest ih =>
          simp only [List.filterMap_cons]
          cases hq : q.2 with
          | none => exact ih (fun p hp => h p (List.mem_cons_of_mem _ hp))
          | some v =>
              simp only [Option.map_some, alookup,
                if_neg (h q (List.mem_cons_self _ _))]
              exact ih (fun p hp => h p (List.mem_cons_of_mem _ hp))
  | some v => simp [el, Elem.get, alookup]

/-! ## Python dict construction is the identity on duplicate-free lists -/

/-- Lookup distributes over append, left list first. -/
theorem alookup_append {κ α : Type} [DecidableEq κ] (l₁ l₂ : List (κ × α))
    (k : κ) :
    alookup (l₁ ++ l₂) k =
      match alookup l₁ k with
      | some v => some v
      | none => alookup l₂ k := by
  induction l₁ with
  | nil => rfl
  | cons p rest ih =>
      by_cases hk : p.1 = k <;> simp [alookup, hk, ih]

/-- Folding Python dict insertion over pairs with fresh, duplicate-free
keys just appends them. -/
theorem foldl_aset_append {κ α : Type} [DecidableEq κ] :
    ∀ (l : List (κ × α)) (acc : List (κ × α)),
      (l.map Prod.fst).Nodup → (∀ p ∈ l, alookup acc p.1 = none) →
      l.foldl (fun acc p => aset acc p.1 p.2) acc = acc ++ l
  | [], acc, _, _ => by simp
  | p :: rest, acc, h1, h2 => by
      simp only [List.map_cons, List.nodup_cons] at h1
      have hacc : alookup acc p.1 = none := h2 p (List.mem_cons_self _ _)
      have hset : aset acc p.1 p.2 = acc ++ [p] := by
        simp [aset, hacc]
      have h2' : ∀ q ∈ rest, alookup (acc ++ [p]) q.1 = none := by
        intro q hq
        have hne : p.1 ≠ q.1 := fun he =>
          h1.1 (he ▸ List.mem_map_of_mem Prod.fst hq)
        rw [alookup_append, h2 q (List.mem_cons_of_mem _ hq)]
        simp [alookup, hne]
      have ih := foldl_aset_append rest (acc ++ [p]) h1.2 h2'
      simp only [List.foldl_cons, hset, ih, List.append_assoc,
        List.singleton_append]

/-- `dict(pairs)` is the identity when the keys are duplicate-free. -/
theorem pydict_of_nodup {κ α : Type} [DecidableEq κ] (l : List (κ × α))
    (h : (l.map Prod.fst).Nodup) : pydict l = l := by
  have := foldl_aset_append l [] h (fun p _ => rfl)
  simpa [pydict] using this

/-! ## Re-parsing an emitted member recovers it -/

/-- The declared content of an emitted `<method>` is the method record. -/
theorem specMethodOf_unparse (m : Method) (n : Option String) :
    specMethodOf (m.unparse n) = m := by
  have h1 : childrenTagged (m.unparse n) "arg" =
      m.args.map (fun a => unparse_arg a.1 a.2 (some "in")) ++
        m.returns.map (fun a => unparse_arg a.1 a.2 (some "out")) := by
    simp only [Method.unparse, childrenTagged, el_children, List.filter_append]
    rw [filter_tag_of_all (fun (a : Arg) => unparse_arg a.1 a.2 (some "in"))
        m.args "arg" (fun a => unparse_arg_tag _ _ _),
      filter_tag_of_all (fun (a : Arg) => unparse_arg a.1 a.2 (some "out"))
        m.returns "arg" (fun a => unparse_arg_tag _ _ _)]
  cases m with
  | mk args returns =>
      simp only [specMethodOf, h1, List.filter_append]
      have hein : (specArg ∘ fun (a : Arg) => unparse_arg a.1 a.2 (some "in")) = id := by
        funext a
        simp [Function.comp, specArg]
      have heout : (specArg ∘ fun (a : Arg) => unparse_arg a.1 a.2 (some "out")) = id := by
        funext a
        simp [Function.comp, specArg]
      congr 1
      · rw [List.filter_eq_self.mpr, List.filter_eq_nil_iff.mpr]
        · rw [List.append_nil, List.map_map, hein, List.map_id]
        · intro e he
          obtain ⟨a, -, rfl⟩ := List.mem_map.mp he
          simp [specDirIs]
        · intro e he
          obtain ⟨a, -, rfl⟩ := List.mem_map.mp he
          simp [specDirIs]
      · rw [List.filter_eq_nil_iff.mpr, List.filter_eq_self.mpr]
        · rw [List.nil_append, List.map_map, heout, List.map_id]
        · intro e he
          obtain ⟨a, -, rfl⟩ := List.mem_map.mp he
          simp [specDirIs]
        · intro e he
          obtain ⟨a, -, rfl⟩ := List.mem_map.mp he
          simp [specDirIs]

/-- The declared content of an emitted `<property>` is the record. -/
theorem specPropertyOf_unparse (p : Property) (n : Option String) :
    specPropertyOf (p.unparse n) = p := by
  cases p with
  | mk ty ac =>
      cases n <;> cases ty <;> cases ac <;>
        simp [specPropertyOf, Property.unparse, el, Elem.get, alookup]

/-- The declared content of an emitted `<signal>` is the record. -/
theorem specSignalOf_unparse (s : Signal) (n : Option String) :
    specSignalOf (s.unparse n) = s := by
  cases s with
  | mk args =>
      have h1 : childrenTagged (Signal.unparse ⟨args⟩ n) "arg" =
          args.map (fun a => unparse_arg a.1 a.2 none) := by
        simp only [Signal.unparse, childrenTagged, el_children]
        exact filter_tag_of_all (fun (a : Arg) => unparse_arg a.1 a.2 none)
          args "arg" (fun a => unparse_arg_tag _ _ _)
      have he : (specArg ∘ fun (a : Arg) => unparse_arg a.1 a.2 none) = id := by
        funext a
        simp [Function.comp, specArg]
      simp only [specSignalOf, h1, ← List.map_map]
      rw [show List.map specArg (List.map (fun (a : Arg) => unparse_arg a.1 a.2 none) args) = args by
        rw [List.map_map, he, List.map_id]]

@[simp] theorem method_unparse_tag (m : Method) (n : Option String) :
    (m.unparse n).tag = "method" := rfl

@[simp] theorem property_unparse_tag (p : Property) (n : Option String) :
    (p.unparse n).tag = "property" := rfl

@[simp] theorem signal_unparse_tag (s : Signal) (n : Option String) :
    (s.unparse n).tag = "signal" := rfl

@[simp] theorem interface_unparse_tag (i : Interface) (n : Option String) :
    (i.unparse n).tag = "interface" := rfl

@[simp] theorem method_unparse_get_name (m : Method) (n : Option String) :
    (m.unparse n).get "name" = n :=
  el_get_name_of_head _ _ _ _ (by simp)

@[simp] theorem property_unparse_get_name (p : Property) (n : Option String) :
    (p.unparse n).get "name" = n :=
  el_get_name_of_head _ _ _ _ (by simp)

@[simp] theorem signal_unparse_get_name (s : Signal) (n : Option String) :
    (s.unparse n).get "name" = n :=
  el_get_name_of_head _ _ _ _ (by simp)

@[simp] theorem interface_unparse_get_name (i : Interface) (n : Option String) :
    (i.unparse n).get "name" = n :=
  el_get_name_of_head _ _ _ _ (by simp)

@[simp] theorem node_el_get_name (n : Option String) :
    (el "node" [("name", n)] []).get "name" = n :=
  el_get_name_of_head _ _ _ _ (by simp)

/-- The declared content of an emitted `<interface>` is the record. -/
theorem specInterfaceOf_unparse (i : Interface) (n : Option String) :
    specInterfaceOf (i.unparse n) = i := by
  cases i with
  | mk ms ps ss =>
      have hm : childrenTagged (Interface.unparse ⟨ms, ps, ss⟩ n) "method" =
          ms.map (fun p => p.2.unparse p.1) := by
        simp only [Interface.unparse, childrenTagged, el_children,
          List.filter_append]
        rw [filter_tag_of_all (fun (p : Option String × Method) => p.2.unparse p.1)
            ms "method" (fun p => method_unparse_tag _ _),
          filter_tag_of_none (fun (p : Option String × Property) => p.2.unparse p.1)
            ps "method" (fun p => by simp),
          filter_tag_of_none (fun (p : Option String × Signal) => p.2.unparse p.1)
            ss "method" (fun p => by simp)]
        simp
      have hp : childrenTagged (Interface.unparse ⟨ms, ps, ss⟩ n) "property" =
          ps.map (fun p => p.2.unparse p.1) := by
        simp only [Interface.unparse, childrenTagged, el_children,
          List.filter_append]
        rw [filter_tag_of_none (fun (p : Option String × Method) => p.2.unparse p.1)
            ms "property" (fun p => by simp),
          filter_tag_of_all (fun (p : Option String × Property) => p.2.unparse p.1)
            ps "property" (fun p => property_unparse_tag _ _),
          filter_tag_of_none (fun (p : Option String × Signal) => p.2.unparse p.1)
            ss "property" (fun p => by simp)]
        simp
      have hs : childrenTagged (Interface.unparse ⟨ms, ps, ss⟩ n) "signal" =
          ss.map (fun p => p.2.unparse p.1) := by
        simp only [Interface.unparse, childrenTagged, el_children,
          List.filter_append]
        rw [filter_tag_of_none (fun (p : Option String × Method) => p.2.unparse p.1)
            ms "signal" (fun p => by simp),
          filter_tag_of_none (fun (p : Option String × Property) => p.2.unparse p.1)
            ps "signal" (fun p => by simp),
          filter_tag_of_all (fun (p : Option String × Signal) => p.2.unparse p.1)
            ss "signal" (fun p => signal_unparse_tag _ _)]
        simp
      have hem : ((fun m => (m.get "name", specMethodOf m)) ∘
          fun (p : Option String × Method) => p.2.unparse p.1) = id := by
        funext p
        simp [Function.comp, specMethodOf_unparse]
      have hep : ((fun p => (p.get "name", specPropertyOf p)) ∘
          fun (p : Option String × Property) => p.2.unparse p.1) = id := by
        funext p
        simp [Function.comp, specPropertyOf_unparse]
      have hes : ((fun q => (q.get "name", specSignalOf q)) ∘
          fun (p : Option String × Signal) => p.2.unparse p.1) = id := by
        funext p
        simp [Function.comp, specSignalOf_unparse]
      simp [specInterfaceOf, hm, hp, hs, hem, hep, hes]

/-- Re-reading an emitted document recovers the schema exactly: the
emitter writes every interface, member and attribute the schema holds,
grouped by kind in insertion order, and the declared-content judge reads
them back unchanged. -/
theorem specDeclares_to_xml (s : Schema) : specDeclares s.to_xml = s := by
  cases s with
  | mk ifs nds =>
      have hi : childrenTagged (Schema.to_xml ⟨ifs, nds⟩) "interface" =
          ifs.map (fun p => p.2.unparse p.1) := by
        simp only [Schema.to_xml, childrenTagged, el_children,
          List.filter_append]
        rw [filter_tag_of_all (fun (p : Option String × Interface) => p.2.unparse p.1)
            ifs "interface" (fun p => interface_unparse_tag _ _),
          filter_tag_of_none (fun (n : Option String) => el "node" [("name", n)] [])
            nds "interface" (fun n => by simp)]
        simp
      have hn : childrenTagged (Schema.to_xml ⟨ifs, nds⟩) "node" =
          nds.map (fun n => el "node" [("name", n)] []) := by
        simp only [Schema.to_xml, childrenTagged, el_children,
          List.filter_append]
        rw [filter_tag_of_none (fun (p : Option String × Interface) => p.2.unparse p.1)
            ifs "node" (fun p => by simp),
          filter_tag_of_all (fun (n : Option String) => el "node" [("name", n)] [])
            nds "node" (fun n => by simp)]
        simp
      have hei : ((fun i => (i.get "name", specInterfaceOf i)) ∘
          fun (p : Option String × Interface) => p.2.unparse p.1) = id := by
        funext p
        simp [Function.comp, specInterfaceOf_unparse]
      have hen : ((fun n => n.get "name") ∘
          fun (n : Option String) => el "node" [("name", n)] []) = id := by
        funext n
        simp [Function.comp]
      simp [specDeclares, hi, hn, hei, hen]

/-! ## On well-formed documents the code parser reads the declared content -/

/-- On a method whose children are explicit-direction leaf args, the
source's descendant search with the `!=` predicates selects exactly the
`direction="in"` args as inputs and the `direction="out"` args as
outputs — the declared content. -/
theorem Method_parse_eq_spec (m : Elem)
    (h : ∀ a ∈ m.children, WfMethodArg a) :
    Method.parse m = specMethodOf m := by
  have hleaves : ∀ a ∈ m.children, a.children = [] := by
    intro a ha
    exact List.isEmpty_iff.mp (h a ha).2.1
  have hdesc : descTagged m "arg" = m.children := by
    rw [descTagged, descList_of_leaves m.children hleaves]
    exact List.filter_eq_self.mpr (fun a ha => by simp [(h a ha).1])
  have hch : childrenTagged m "arg" = m.children :=
    List.filter_eq_self.mpr (fun a ha => by simp [(h a ha).1])
  have hdirIn : ∀ a ∈ m.children,
      neqAttr a "direction" "out" = specDirIs a "in" := by
    intro a ha
    rcases (h a ha).2.2 with hd | hd <;> simp [neqAttr, specDirIs, hd]
  have hdirOut : ∀ a ∈ m.children,
      neqAttr a "direction" "in" = specDirIs a "out" := by
    intro a ha
    rcases (h a ha).2.2 with hd | hd <;> simp [neqAttr, specDirIs, hd]
  simp only [Method.parse, specMethodOf, hdesc, hch]
  rw [List.filter_congr hdirIn, List.filter_congr hdirOut]
  constructor

/-- The source's property parser reads exactly the declared content. -/
theorem Property_parse_eq_spec (e : Elem) :
    Property.parse e = specPropertyOf e := rfl

/-- The source's signal parser reads exactly the declared content. -/
theorem Signal_parse_eq_spec (e : Elem) :
    Signal.parse e = specSignalOf e := rfl

/-- The keys of a `get_all_ordered` list are the `name` attributes. -/
theorem get_all_ordered_keys {α : Type} (l : List Elem) (f : Elem → α) :
    (get_all_ordered l f).map Prod.fst = l.map (fun n => n.get "name") := by
  simp [get_all_ordered, List.map_map, Function.comp]

/-- On a well-formed interface element the source parser (dict-collapsed
member lists) reads exactly the declared content. -/
theorem Interface_parse_eq_spec (e : Elem) (h : WfInterface e) :
    Interface.parse e = specInterfaceOf e := by
  obtain ⟨hargs, hm, hp, hs⟩ := h
  simp only [Interface.parse, specInterfaceOf]
  refine congr (congr (congrArg Interface.mk ?_) ?_) ?_
  · rw [pydict_of_nodup _ (by rw [get_all_ordered_keys]; exact hm)]
    exact List.map_congr_left (fun m hmem => by
      simp [get_all_ordered, Method_parse_eq_spec m (hargs m hmem)])
  · rw [pydict_of_nodup _ (by rw [get_all_ordered_keys]; exact hp)]
    rfl
  · rw [pydict_of_nodup _ (by rw [get_all_ordered_keys]; exact hs)]
    rfl

/-- On a well-formed document `Schema.from_xml` reads exactly the
declared content. -/
theorem from_xml_eq_specDeclares (d : Elem) (h : WfDoc d) :
    Schema.from_xml d = specDeclares d := by
  obtain ⟨hifs, hnd⟩ := h
  simp only [Schema.from_xml, specDeclares]
  refine congrArg₂ Schema.mk ?_ rfl
  rw [pydict_of_nodup _ (by rw [get_all_ordered_keys]; exact hnd)]
  exact List.map_congr_left (fun i hi => by
    simp [get_all_ordered, Interface_parse_eq_spec i (hifs i hi)])

/-! ## The schema round trip (C5) and the default direction (C6) -/

/-- **C6.** The claim says an `<arg>` with no `direction` attribute is
parsed as an input argument, as if `direction="in"` had been written.  It
is not: ElementTree's `[@direction!="out"]` (and `[@direction!="in"]`)
selects only elements that *carry* the attribute, so the direction-less
arg of `<method name="M"><arg type="s"/></method>` lands in neither
`args` nor `returns` — whereas the spec's default-`in` reading (the
declared content) puts it in `args`. -/
theorem directionless_arg_dropped :
    Method.parse (.mk "method" [("name", "M")] [.mk "arg" [("type", "s")] []]) =
        { args := [], returns := [] } ∧
      specMethodOf (.mk "method" [("name", "M")] [.mk "arg" [("type", "s")] []]) =
        { args := [(none, some "s")], returns := [] } := by
  constructor
  · simp [Method.parse, descTagged, descList, neqAttr, Elem.get, alookup,
      get_all_ordered, parse_arg, childrenTagged]
  · simp [specMethodOf, childrenTagged, specDirIs, specArg, Elem.get, alookup]

/-- **C5 (counterexample).** A document of the supported subset whose
method arg carries no `direction` attribute (the subset's default is
`in`): parsing and re-emitting loses the arg entirely, so the re-emitted
document no longer declares the same members with the same attributes. -/
theorem roundtrip_drops_directionless_arg :
    specDeclares ((Schema.from_xml (.mk "node" []
          [.mk "interface" [("name", "I")]
            [.mk "method" [("name", "M")] [.mk "arg" [("type", "s")] []]]])).to_xml) =
        { interfaces := [(some "I",
            { methods := [(some "M", { args := [], returns := [] })],
              properties := [], signals := [] })],
          nodes := [] } ∧
      specDeclares (.mk "node" []
          [.mk "interface" [("name", "I")]
            [.mk "method" [("name", "M")] [.mk "arg" [("type", "s")] []]]]) =
        { interfaces := [(some "I",
            { methods := [(some "M",
                { args := [(none, some "s")], returns := [] })],
              properties := [], signals := [] })],
          nodes := [] } ∧
      ({ interfaces := [(some "I",
            { methods := [(some "M", { args := [], returns := [] })],
              properties := [], signals := [] })],
          nodes := [] } : Schema) ≠
        { interfaces := [(some "I",
            { methods := [(some "M",
                { args := [(none, some "s")], returns := [] })],
              properties := [], signals := [] })],
          nodes := [] } := by
  refine ⟨?_, ?_, by decide⟩
  · simp [Schema.from_xml, Schema.to_xml, Interface.parse, Method.parse,
      Property.parse, Signal.parse, specDeclares, specInterfaceOf,
      specMethodOf, specPropertyOf, specSignalOf, specArg, specDirIs,
      childrenTagged, descTagged, descList, neqAttr, Elem.get, alookup,
      get_all_ordered, parse_arg, pydict, aset, el, Interface.unparse,
      Method.unparse, Property.unparse, Signal.unparse, unparse_arg]
  · simp [specDeclares, specInterfaceOf, specMethodOf, specPropertyOf,
      specSignalOf, specArg, specDirIs, childrenTagged, Elem.get, alookup]

/-- **C5 (amended).** For every well-formed document of the supported
introspection subset in which every method `<arg>` carries an explicit
`direction` of `in` or `out` (and interface/member names are not
repeated), parsing with `Schema.from_xml` and re-emitting with
`Schema.to_xml` yields a document declaring the same interfaces and
members (methods, properties, signals, child nodes) in the same member
order with the same attributes. -/
theorem roundtrip_preserves_declared_content (d : Elem) (h : WfDoc d) :
    specDeclares ((Schema.from_xml d).to_xml) = specDeclares d := by
  rw [specDeclares_to_xml, from_xml_eq_specDeclares d h]

/-- **C5 (witness).** The round-trip theorem applied to the repository's
own test document: one interface with two methods, a property and a
signal, plus a child node. -/
theorem roundtrip_preserves_declared_content_witness :
    specDeclares ((Schema.from_xml (.mk "node" []
        [.mk "interface" [("name", "org.freedesktop.DBus")]
          [.mk "method" [("name", "RequestName")]
            [.mk "arg" [("direction", "in"), ("type", "s")] [],
              .mk "arg" [("direction", "in"), ("type", "u")] [],
              .mk "arg" [("direction", "out"), ("type", "u")] []],
            .mk "method" [("name", "ReloadConfig")] [],
            .mk "property" [("name", "Features"), ("type", "as"),
              ("access", "read")] [],
            .mk "signal" [("name", "NameLost")]
              [.mk "arg" [("type", "s")] []]],
          .mk "node" [("name", "foo")] []])).to_xml) =
      specDeclares (.mk "node" []
        [.mk "interface" [("name", "org.freedesktop.DBus")]
          [.mk "method" [("name", "RequestName")]
            [.mk "arg" [("direction", "in"), ("type", "s")] [],
              .mk "arg" [("direction", "in"), ("type", "u")] [],
              .mk "arg" [("direction", "out"), ("type", "u")] []],
            .mk "method" [("name", "ReloadConfig")] [],
            .mk "property" [("name", "Features"), ("type", "as"),
              ("access", "read")] [],
            .mk "signal" [("name", "NameLost")]
              [.mk "arg" [("type", "s")] []]],
          .mk "node" [("name", "foo")] []]) :=
  roundtrip_preserves_declared_content _ (by decide)

end Xibus
